import Mathlib

/-
  Verification of the robinhood-checker repository: a shallow embedding of
  `stock_categories.py` (configuration parsing) and `main.py` (position
  enrichment and per-category allocation reconciliation), together with
  theorems settling the specification claims.

  Python machine details modelled explicitly:
  * exceptions become an error type `PyError` and fallible code returns
    `Except PyError _`;
  * Python `float` values become rationals `ℚ` (all claims in scope are
    about exact formulas and zero tests, not rounding);
  * Python `dict` becomes an association list with in-place value update
    and append-on-new-key, matching insertion-order semantics;
  * `float(str)` becomes `pyFloat`, a partial decimal-literal parser.
-/

set_option maxHeartbeats 1000000

namespace RHC

/-- The Python exception classes that the embedded code can raise.
`valueError`, `keyError`, `indexError`, `unboundLocalError` and
`zeroDivisionError` are the builtin exceptions; `parseError`,
`categoryNotFoundError` and `tickerNotFoundError` are the classes defined
at the top of `stock_categories.py`. -/
inductive PyError where
  | parseError
  | valueError
  | keyError
  | indexError
  | unboundLocalError
  | zeroDivisionError
  | categoryNotFoundError
  | tickerNotFoundError
  deriving DecidableEq, Repr

/-- Numeric value of a list of decimal digit characters, most significant
first. -/
def digitsVal (ds : List Char) : ℕ :=
  ds.foldl (fun a c => 10 * a + (c.toNat - 48)) 0

/-- The surrounding-whitespace tolerance of Python `float(str)`, over the
string's character list. -/
def pyStrip (cs : List Char) : List Char :=
  ((cs.dropWhile Char.isWhitespace).reverse.dropWhile Char.isWhitespace).reverse

/-- Model of Python `float(s)` on an already-stripped character list:
an optional sign, a decimal mantissa (digits, optionally with a
fractional part, at least one digit overall) and an optional exponent.
Returns `none` exactly where `float` raises `ValueError`.  (The `inf`,
`nan` and digit-underscore forms that CPython also accepts are outside
the configuration vocabulary and are not modelled.) -/
def pyFloatChars (cs : List Char) : Option ℚ :=
  let sign : ℚ := match cs with
    | '-' :: _ => -1
    | _ => 1
  let cs := match cs with
    | '+' :: r => r
    | '-' :: r => r
    | _ => cs
  let ip := cs.takeWhile Char.isDigit
  let cs := cs.dropWhile Char.isDigit
  let fp := match cs with
    | '.' :: r => r.takeWhile Char.isDigit
    | _ => []
  let cs := match cs with
    | '.' :: r => r.dropWhile Char.isDigit
    | _ => cs
  if ip = [] ∧ fp = [] then none
  else
    let mantissa : ℚ := (digitsVal ip : ℚ) + (digitsVal fp : ℚ) / (10 : ℚ) ^ fp.length
    match cs with
    | [] => some (sign * mantissa)
    | e :: r =>
      if e = 'e' ∨ e = 'E' then
        let eneg : Bool := match r with
          | '-' :: _ => true
          | _ => false
        let r := match r with
          | '+' :: r2 => r2
          | '-' :: r2 => r2
          | _ => r
        let ed := r.takeWhile Char.isDigit
        let rest := r.dropWhile Char.isDigit
        if ed = [] ∨ rest ≠ [] then none
        else if eneg then some (sign * mantissa / (10 : ℚ) ^ digitsVal ed)
        else some (sign * mantissa * (10 : ℚ) ^ digitsVal ed)
      else none

/-- Python `float(s)` on a string. -/
def pyFloat (s : String) : Option ℚ :=
  pyFloatChars (pyStrip s.data)

/-- `s.replace('%', '')`: every `%` character removed (the replacement
pattern is a single character, so `replace` is a filter). -/
def stripPercentChars (s : String) : List Char :=
  s.data.filter (fun c => ¬ c = '%')

/-- `trim_trailing_empty_values` from `stock_categories.py`: drop the
trailing run of empty cells from a row. -/
def trim_trailing_empty_values (l : List String) : List String :=
  (l.reverse.dropWhile (fun s => s = "")).reverse

/-- A CSV row: a list of string cells. -/
abbrev Row := List String

/-- A Python `dict` keyed by strings, as an association list in insertion
order. -/
abbrev Dict (α : Type) := List (String × α)

/-- `d[key]` as a total lookup: the value at the first matching key. -/
def dictLookup {α : Type} : Dict α → String → Option α
  | [], _ => none
  | (k, v) :: rest, key => if k = key then some v else dictLookup rest key

/-- `d[key] = value`: update the existing entry in place, or append a new
entry, exactly as a Python dict does. -/
def dictInsert {α : Type} : Dict α → String → α → Dict α
  | [], k, v => [(k, v)]
  | (k', v') :: rest, k, v =>
    if k' = k then (k', v) :: rest else (k', v') :: dictInsert rest k v

/-- The `Ticker` class: a name and the list of category names it was
declared under (the raw `row[1:]` of its ticker-section row). -/
structure Ticker where
  name : String
  categories : List String
  deriving DecidableEq, Repr

/-- The `Category` class: a name, the parsed allocation percentage, and
the list of member tickers (filled in while the ticker section loads). -/
structure Category where
  name : String
  allocation_percentage : ℚ
  tickers : List Ticker
  deriving DecidableEq, Repr

/-- `Category.__init__`: `float(allocation_percentage.replace('%', ''))`.
On a string argument, a failed `float` raises `ValueError`; the
`except TypeError` clause of the source (which would re-raise as
`ParseError`) does not catch it, so the `ValueError` escapes. -/
def Category.init (name ap : String) : Except PyError Category :=
  match pyFloatChars (pyStrip (stripPercentChars ap)) with
  | some q => .ok { name := name, allocation_percentage := q, tickers := [] }
  | none => .error .valueError

/-- Settings loop of `_load_info_from_csv`: consume rows until a
`"Category"` or `"Stock ticker"` marker (the marker row itself is
consumed by the loop's `break`), recording the `"Reserved cash amount"`
setting.  `row[1]` on a one-cell row raises `IndexError`; a bad float
raises `ValueError` (the `except TypeError` clause does not catch it). -/
def loadSettings : List Row → Option ℚ → Except PyError (Option ℚ × List Row)
  | [], mc => .ok (mc, [])
  | row :: rest, mc =>
    match trim_trailing_empty_values row with
    | [] => loadSettings rest mc
    | c :: cs =>
      if c = "Category" then .ok (mc, rest)
      else if c = "Stock ticker" then .ok (mc, rest)
      else if c = "Reserved cash amount" then
        match cs with
        | [] => .error .indexError
        | v :: _ =>
          match pyFloat v with
          | some q => loadSettings rest (some q)
          | none => .error .valueError
      else loadSettings rest mc

/-- Category loop of `_load_info_from_csv`: each data row
`(name, percentage)` constructs a `Category` and registers it by name;
`"Category"` rows are skipped, a `"Stock ticker"` row ends the loop
(consumed).  `row[1]` on a one-cell row raises `IndexError`.  (The
source's local `categories` list is dead downstream and is not
modelled.) -/
def loadCategories : List Row → Dict Category →
    Except PyError (Dict Category × List Row)
  | [], cbn => .ok (cbn, [])
  | row :: rest, cbn =>
    match trim_trailing_empty_values row with
    | [] => loadCategories rest cbn
    | c :: cs =>
      if c = "Category" then loadCategories rest cbn
      else if c = "Stock ticker" then .ok (cbn, rest)
      else
        match cs with
        | [] => .error .indexError
        | ap :: _ =>
          match Category.init c ap with
          | .error e => .error e
          | .ok cat => loadCategories rest (dictInsert cbn c cat)

/-- `categories_by_name[category_name].tickers.append(t)` for each
referenced category name: an unknown name raises `KeyError`. -/
def appendTickerToCategories (t : Ticker) :
    List String → Dict Category → Except PyError (Dict Category)
  | [], cbn => .ok cbn
  | cname :: rest, cbn =>
    match dictLookup cbn cname with
    | none => .error .keyError
    | some c =>
      appendTickerToCategories t rest
        (dictInsert cbn cname
          { name := c.name, allocation_percentage := c.allocation_percentage,
            tickers := c.tickers ++ [t] })

/-- Ticker loop of `_load_info_from_csv`: each data row
`(ticker_name, category_name...)` constructs a `Ticker`, registers it by
name and appends it to every referenced category; `"Stock ticker"` rows
are skipped. -/
def loadTickers : List Row → Dict Category → Dict Ticker →
    Except PyError (Dict Category × Dict Ticker)
  | [], cbn, tbn => .ok (cbn, tbn)
  | row :: rest, cbn, tbn =>
    match trim_trailing_empty_values row with
    | [] => loadTickers rest cbn tbn
    | c :: cs =>
      if c = "Stock ticker" then loadTickers rest cbn tbn
      else
        match appendTickerToCategories ⟨c, cs⟩ cs cbn with
        | .error e => .error e
        | .ok cbn' => loadTickers rest cbn' (dictInsert tbn c ⟨c, cs⟩)

/-- The triple returned by `_load_info_from_csv`. -/
abbrev ParsedConfig := ℚ × Dict Category × Dict Ticker

/-- The category and ticker loops run in sequence on the rows left over
after the settings loop. -/
def sectionsAfterSettings (r1 : List Row) :
    Except PyError (Dict Category × Dict Ticker) :=
  match loadCategories r1 [] with
  | .error e => .error e
  | .ok (cbn, r2) =>
    match loadTickers r2 cbn [] with
    | .error e => .error e
    | .ok ct => .ok ct

/-- `StockCategories._load_info_from_csv`: the three loops in sequence;
only after all input is consumed is a missing `"Reserved cash amount"`
setting reported as `ParseError`. -/
def loadInfoFromCsv (rows : List Row) : Except PyError ParsedConfig :=
  match loadSettings rows none with
  | .error e => .error e
  | .ok (mc, r1) =>
    match sectionsAfterSettings r1 with
    | .error e => .error e
    | .ok (cbn, tbn) =>
      match mc with
      | none => .error .parseError
      | some q => .ok (q, cbn, tbn)

/-- `StockCategories.get_tickers_in_category`: on a missing name the
`except KeyError` handler evaluates an f-string that reads the local
`category`, which the failed lookup never bound, so Python raises
`UnboundLocalError` there (the intended `CategoryNotFoundError` is never
constructed). -/
def getTickersInCategory (parsed : ParsedConfig) (name : String) :
    Except PyError (List Ticker) :=
  match dictLookup parsed.2.1 name with
  | none => .error .unboundLocalError
  | some c => .ok c.tickers

/-- The rows left over once the settings loop has consumed its section:
everything after the first row whose (trimmed) first cell is a
`"Category"` or `"Stock ticker"` marker. -/
def settingsRest : List Row → List Row
  | [] => []
  | row :: rest =>
    match trim_trailing_empty_values row with
    | [] => settingsRest rest
    | c :: _ =>
      if c = "Category" ∨ c = "Stock ticker" then rest else settingsRest rest

/-- Names of the data rows of a ticker section (rows that are neither
empty after trimming nor a `"Stock ticker"` marker). -/
def tickerRowNames : List Row → List String
  | [] => []
  | row :: rest =>
    match trim_trailing_empty_values row with
    | [] => tickerRowNames rest
    | c :: _ =>
      if c = "Stock ticker" then tickerRowNames rest else c :: tickerRowNames rest

/-- Names of the ticker-section data rows that declare at least one
category. -/
def activeRowNames : List Row → List String
  | [] => []
  | row :: rest =>
    match trim_trailing_empty_values row with
    | [] => activeRowNames rest
    | c :: cs =>
      if c = "Stock ticker" ∨ cs = [] then activeRowNames rest
      else c :: activeRowNames rest

/-- The set of ticker names appearing in some category's member list. -/
def catNamesFinset : Dict Category → Finset String
  | [] => ∅
  | p :: rest => (p.2.tickers.map Ticker.name).toFinset ∪ catNamesFinset rest

/-- The set of registered ticker names whose category list is
non-empty. -/
def activeNamesFinset (tbn : Dict Ticker) : Finset String :=
  ((tbn.filter (fun p => !p.2.categories.isEmpty)).map Prod.fst).toFinset

/-- Union of the ticker names returned by `getTickersInCategory` over a
list of category entries (a failed query contributes nothing). -/
def unionOverNames (parsed : ParsedConfig) : Dict Category → Finset String
  | [] => ∅
  | p :: rest =>
    match getTickersInCategory parsed p.1 with
    | .ok ts => (ts.map Ticker.name).toFinset ∪ unionOverNames parsed rest
    | .error _ => unionOverNames parsed rest

/-- Union, over every parsed category, of the ticker names returned by
querying `getTickersInCategory` with that category's name. -/
def unionOfCategoryQueries (parsed : ParsedConfig) : Finset String :=
  unionOverNames parsed parsed.2.1

/-- An entry of the positions dictionary built by
`RobinhoodManager._update_positions_dictionary`. -/
structure Position where
  symbol : String
  quantity : ℚ
  average_buy_price : ℚ
  current_price : ℚ
  previous_close_price : ℚ
  price_change_percent_today : ℚ
  total_cost : ℚ
  total_value : ℚ
  total_return_amount : ℚ
  total_return_percent : ℚ
  deriving DecidableEq, Repr

/-- The per-position computation of `_update_positions_dictionary`, given
the already-fetched numeric inputs.  A zero `previous_close` makes the
price-change division raise `ZeroDivisionError`; the return-percent
division is guarded by the `total_cost == 0` test. -/
def enrichPosition (symbol : String) (quantity average_buy_price
    current_price previous_close_price : ℚ) : Except PyError Position :=
  if previous_close_price = 0 then .error .zeroDivisionError
  else
    let price_change_percent_today :=
      (current_price - previous_close_price) / previous_close_price
    let total_cost := quantity * average_buy_price
    let total_value := quantity * current_price
    let total_return_amount := total_value - total_cost
    let total_return_percent :=
      if total_cost = 0 then 0 else total_return_amount / total_cost
    .ok
      { symbol := symbol
        quantity := quantity
        average_buy_price := average_buy_price
        current_price := current_price
        previous_close_price := previous_close_price
        price_change_percent_today := price_change_percent_today * 100
        total_cost := total_cost
        total_value := total_value
        total_return_amount := total_return_amount
        total_return_percent := total_return_percent * 100 }

/-- One iteration of the per-category ticker loop in `main` (lines
223-235 of `main.py`): a `"Cash"` ticker replaces the running total with
the clamped free cash; any other ticker found in the positions dictionary
adds its `total_value` split across the number of categories it declares
(`len(ticker.categories)`, whose zero case is Python's
`ZeroDivisionError`). -/
def allocStep (positions : Dict Position) (cash_amount minimum_cash_amount : ℚ)
    (acc : ℚ) (t : Ticker) : Except PyError ℚ :=
  if t.name = "Cash" then
    let a := cash_amount - minimum_cash_amount
    .ok (if a < 0 then 0 else a)
  else
    match dictLookup positions t.name with
    | none => .ok acc
    | some p =>
      if t.categories.length = 0 then .error .zeroDivisionError
      else .ok (acc + p.total_value / (t.categories.length : ℚ))

/-- The ticker loop of `main`, folded from a given running total. -/
def allocFold (positions : Dict Position) (cash_amount minimum_cash_amount : ℚ) :
    List Ticker → ℚ → Except PyError ℚ
  | [], acc => .ok acc
  | t :: ts, acc =>
    match allocStep positions cash_amount minimum_cash_amount acc t with
    | .error e => .error e
    | .ok acc' => allocFold positions cash_amount minimum_cash_amount ts acc'

/-- `allocation_to_category` for one category: the ticker loop started
from 0. -/
def allocationToCategory (positions : Dict Position)
    (cash_amount minimum_cash_amount : ℚ) (tickers : List Ticker) :
    Except PyError ℚ :=
  allocFold positions cash_amount minimum_cash_amount tickers 0

/-- `actual_allocation_percentage = 100.0 * allocation_to_category /
equity` (Python float division by a zero equity raises
`ZeroDivisionError`). -/
def actualAllocationPercentage (positions : Dict Position)
    (cash_amount minimum_cash_amount equity : ℚ) (tickers : List Ticker) :
    Except PyError ℚ :=
  match allocationToCategory positions cash_amount minimum_cash_amount tickers with
  | .error e => .error e
  | .ok a => if equity = 0 then .error .zeroDivisionError
             else .ok (100 * a / equity)

/-- The amount a single non-`"Cash"` ticker contributes to a category it
is listed under: its position's `total_value` divided by the number of
categories it declares, or 0 when it is absent from the positions
dictionary. -/
def tickerContribution (positions : Dict Position) (t : Ticker) : ℚ :=
  match dictLookup positions t.name with
  | none => 0
  | some p => p.total_value / (t.categories.length : ℚ)

/-- A sample enriched position used by concrete witnesses: 1 share bought
at 0 now worth 100 (so `total_cost = 0` and `total_value = 100`). -/
def samplePosition : Position :=
  { symbol := "AAPL", quantity := 1, average_buy_price := 0,
    current_price := 100, previous_close_price := 50,
    price_change_percent_today := 100, total_cost := 0, total_value := 100,
    total_return_amount := 100, total_return_percent := 0 }

/-! ### Dictionary lemmas -/

theorem dictLookup_dictInsert {α : Type} (d : Dict α) (k : String) (v : α)
    (n : String) :
    dictLookup (dictInsert d k v) n = if k = n then some v else dictLookup d n := by
  induction d with
  | nil => simp [dictLookup, dictInsert]
  | cons hd tl ih =>
    obtain ⟨k', v'⟩ := hd
    by_cases hk : k' = k
    · subst hk
      simp only [dictInsert, if_pos rfl, dictLookup]
      by_cases hn : k' = n <;> simp [hn]
    · simp only [dictInsert, if_neg hk, dictLookup]
      by_cases hn : k' = n
      · subst hn
        have : ¬ k = k' := fun h => hk h.symm
        simp [this]
      · simp [hn, ih]

/-! ### Allocation-fold lemmas -/

theorem allocFold_append (positions : Dict Position) (cash mc : ℚ) :
    ∀ (pre l : List Ticker) (acc a : ℚ),
      allocFold positions cash mc pre acc = .ok a →
      allocFold positions cash mc (pre ++ l) acc = allocFold positions cash mc l a := by
  intro pre
  induction pre with
  | nil =>
    intro l acc a h
    simp only [allocFold] at h
    cases h
    simp
  | cons t ts ih =>
    intro l acc a h
    simp only [allocFold, List.cons_append] at h ⊢
    cases hstep : allocStep positions cash mc acc t with
    | error e => rw [hstep] at h; cases h
    | ok acc' => rw [hstep] at h; exact ih l acc' a h

theorem allocStep_cash (positions : Dict Position) (cash mc acc : ℚ)
    (t : Ticker) (hname : t.name = "Cash") :
    allocStep positions cash mc acc t = .ok (max 0 (cash - mc)) := by
  unfold allocStep
  rw [if_pos hname]
  have hmax : (if cash - mc < 0 then (0 : ℚ) else cash - mc) = max 0 (cash - mc) := by
    rcases lt_or_le (cash - mc) 0 with h | h
    · rw [if_pos h, max_eq_left h.le]
    · rw [if_neg (not_lt.mpr h), max_eq_right h]
  show Except.ok (if cash - mc < 0 then (0 : ℚ) else cash - mc) =
    Except.ok (max 0 (cash - mc))
  rw [hmax]

theorem allocFold_sum (positions : Dict Position) (cash mc : ℚ) :
    ∀ (l : List Ticker) (acc : ℚ),
      (∀ t ∈ l, t.name ≠ "Cash") →
      (∀ t ∈ l, t.categories ≠ []) →
      allocFold positions cash mc l acc =
        .ok (acc + (l.map (tickerContribution positions)).sum) := by
  intro l
  induction l with
  | nil => intro acc _ _; simp [allocFold]
  | cons t ts ih =>
    intro acc hcash hk
    have hname : t.name ≠ "Cash" := hcash t (by simp)
    have hlen : t.categories ≠ [] := hk t (by simp)
    have hlen' : t.categories.length ≠ 0 := by
      simpa [List.length_eq_zero] using hlen
    have hcash' : ∀ u ∈ ts, u.name ≠ "Cash" := fun u hu => hcash u (by simp [hu])
    have hk' : ∀ u ∈ ts, u.categories ≠ [] := fun u hu => hk u (by simp [hu])
    cases hpos : dictLookup positions t.name with
    | none =>
      simp only [allocFold, allocStep, if_neg hname, hpos]
      rw [ih acc hcash' hk']
      simp [tickerContribution, hpos]
    | some p =>
      simp only [allocFold, allocStep, if_neg hname, hpos, if_neg hlen']
      rw [ih _ hcash' hk']
      simp only [List.map_cons, List.sum_cons, tickerContribution, hpos]
      congr 1
      ring

/-! ### Claim C1 -/

/-- C1 counterexample: the claim asserts that a category whose ticker
list mixes `"Cash"` with real symbols yields cash-only allocation
regardless of the order of the tickers.  With `"Cash"` first and a held
symbol after it, the loop adds the symbol's split value on top of the
cash allocation: the result is 400, not the cash-only
`max 0 (500 - 200) = 300`. -/
theorem cash_mixed_not_order_independent :
    allocationToCategory [("AAPL", samplePosition)] 500 200
      [⟨"Cash", ["Balanced"]⟩, ⟨"AAPL", ["Balanced"]⟩] = .ok 400 ∧
    (400 : ℚ) ≠ max 0 (500 - 200) := by
  constructor
  · have hne : ("AAPL" : String) ≠ "Cash" := by decide
    norm_num [allocationToCategory, allocFold, allocStep, dictLookup,
      samplePosition, hne]
  · intro h
    have h300 : (400 : ℚ) = 300 := by rw [h]; norm_num
    norm_num at h300

/-- C1 (amended): encountering `"Cash"` sets the category's running
allocation to `max 0 (cash_amount - minimum_cash_amount)`, replacing
whatever was accumulated so far; tickers after `"Cash"` still add their
split values, so a mixed ticker list yields cash-only allocation exactly
when `"Cash"` is the last ticker of the list (or the later tickers
contribute nothing), not regardless of order. -/
theorem cash_overwrites_running_allocation (positions : Dict Position)
    (cash mc : ℚ) (pre post : List Ticker) (tc : Ticker)
    (hname : tc.name = "Cash")
    (hpre : ∃ a, allocFold positions cash mc pre 0 = .ok a) :
    allocationToCategory positions cash mc (pre ++ tc :: post) =
      allocFold positions cash mc post (max 0 (cash - mc)) ∧
    allocationToCategory positions cash mc (pre ++ [tc]) =
      .ok (max 0 (cash - mc)) := by
  obtain ⟨a, ha⟩ := hpre
  constructor
  · rw [allocationToCategory, allocFold_append positions cash mc pre _ 0 a ha]
    simp only [allocFold, allocStep_cash positions cash mc a tc hname]
  · rw [allocationToCategory, allocFold_append positions cash mc pre _ 0 a ha]
    simp only [allocFold, allocStep_cash positions cash mc a tc hname]

/-- Witness for C1's amended theorem at a concrete input. -/
theorem cash_overwrites_running_allocation_witness :
    (Ticker.mk "Cash" ["Balanced"]).name = "Cash" ∧
    (∃ a, allocFold [("AAPL", samplePosition)] 500 200
        [⟨"AAPL", ["Balanced"]⟩] 0 = .ok a) ∧
    (allocationToCategory [("AAPL", samplePosition)] 500 200
        ([⟨"AAPL", ["Balanced"]⟩] ++ Ticker.mk "Cash" ["Balanced"] :: []) =
      allocFold [("AAPL", samplePosition)] 500 200 [] (max 0 (500 - 200)) ∧
    allocationToCategory [("AAPL", samplePosition)] 500 200
        ([⟨"AAPL", ["Balanced"]⟩] ++ [Ticker.mk "Cash" ["Balanced"]]) =
      .ok (max 0 (500 - 200))) :=
  ⟨rfl, ⟨_, rfl⟩,
    cash_overwrites_running_allocation [("AAPL", samplePosition)] 500 200
      [⟨"AAPL", ["Balanced"]⟩] [] (Ticker.mk "Cash" ["Balanced"]) rfl ⟨_, rfl⟩⟩

/-! ### Claim C2 -/

/-- C2: for a category whose ticker list has no `"Cash"` entry and whose
tickers each declare at least one category, the loop adds exactly
`total_value / K` for each ticker found in the positions dictionary
(`K` the number of categories the ticker declares), a ticker absent from
the positions dictionary contributes 0 without error, and the actual
percentage is `100 * (sum of contributions) / equity`. -/
theorem weight_split_allocation (positions : Dict Position)
    (cash mc equity : ℚ) (l : List Ticker)
    (hcash : ∀ t ∈ l, t.name ≠ "Cash")
    (hk : ∀ t ∈ l, t.categories ≠ [])
    (he : equity ≠ 0) :
    allocationToCategory positions cash mc l =
      .ok ((l.map (tickerContribution positions)).sum) ∧
    actualAllocationPercentage positions cash mc equity l =
      .ok (100 * (l.map (tickerContribution positions)).sum / equity) := by
  have halloc : allocationToCategory positions cash mc l =
      .ok ((l.map (tickerContribution positions)).sum) := by
    rw [allocationToCategory, allocFold_sum positions cash mc l 0 hcash hk,
      zero_add]
  refine ⟨halloc, ?_⟩
  rw [actualAllocationPercentage, halloc]
  simp [if_neg he]

/-- Witness for C2 at a concrete input: "AAPL" (held, total_value 100,
declared in 2 categories) contributes 50; "MSFT" (not held) contributes
0; equity 1000 gives an actual percentage of 5. -/
theorem weight_split_allocation_witness :
    (∀ t ∈ [Ticker.mk "AAPL" ["Tech", "Growth"], Ticker.mk "MSFT" ["Tech"]],
      t.name ≠ "Cash") ∧
    (∀ t ∈ [Ticker.mk "AAPL" ["Tech", "Growth"], Ticker.mk "MSFT" ["Tech"]],
      t.categories ≠ []) ∧
    (1000 : ℚ) ≠ 0 ∧
    (allocationToCategory [("AAPL", samplePosition)] 0 0
        [Ticker.mk "AAPL" ["Tech", "Growth"], Ticker.mk "MSFT" ["Tech"]] =
      .ok (([Ticker.mk "AAPL" ["Tech", "Growth"], Ticker.mk "MSFT" ["Tech"]].map
        (tickerContribution [("AAPL", samplePosition)])).sum) ∧
    actualAllocationPercentage [("AAPL", samplePosition)] 0 0 1000
        [Ticker.mk "AAPL" ["Tech", "Growth"], Ticker.mk "MSFT" ["Tech"]] =
      .ok (100 * ([Ticker.mk "AAPL" ["Tech", "Growth"],
        Ticker.mk "MSFT" ["Tech"]].map
        (tickerContribution [("AAPL", samplePosition)])).sum / 1000)) :=
  ⟨by decide, by decide, by norm_num,
    weight_split_allocation [("AAPL", samplePosition)] 0 0 1000
      [Ticker.mk "AAPL" ["Tech", "Growth"], Ticker.mk "MSFT" ["Tech"]]
      (by decide) (by decide) (by norm_num)⟩

/-! ### Claim C3 -/

/-- C3: constructing a `Category` from an allocation-percentage cell that
is non-numeric after dropping `%` characters fails — but with an escaped
`ValueError`, not the `ParseError` the specification promises, because
`Category.__init__` wraps `float(...)` in `except TypeError` while
`float` raises `ValueError` on a non-numeric string; the category loop
propagates that `ValueError` and registers nothing from the row. -/
theorem malformed_percentage_raises_valueError :
    (∀ name s, pyFloatChars (pyStrip (stripPercentChars s)) = none →
      Category.init name s = .error .valueError) ∧
    (∀ (row : Row) (rest : List Row) (cbn : Dict Category) (n s : String)
        (cs : List String),
      trim_trailing_empty_values row = n :: s :: cs →
      n ≠ "Category" → n ≠ "Stock ticker" →
      pyFloatChars (pyStrip (stripPercentChars s)) = none →
      loadCategories (row :: rest) cbn = .error .valueError) := by
  constructor
  · intro name s h
    simp [Category.init, h]
  · intro row rest cbn n s cs htrim h1 h2 hbad
    simp [loadCategories, htrim, h1, h2, Category.init, hbad]

/-- Witness for C3: the row `("Tech", "abc")`. -/
theorem malformed_percentage_raises_valueError_witness :
    pyFloatChars (pyStrip (stripPercentChars "abc")) = none ∧
    trim_trailing_empty_values ["Tech", "abc"] = "Tech" :: "abc" :: [] ∧
    ("Tech" : String) ≠ "Category" ∧ ("Tech" : String) ≠ "Stock ticker" ∧
    Category.init "Tech" "abc" = .error .valueError ∧
    loadCategories [["Tech", "abc"]] [] = .error .valueError :=
  ⟨rfl, rfl, by decide, by decide,
    malformed_percentage_raises_valueError.1 "Tech" "abc" rfl,
    malformed_percentage_raises_valueError.2 ["Tech", "abc"] [] [] "Tech" "abc"
      [] rfl (by decide) (by decide) rfl⟩

/-! ### Claim C4 -/

/-- C4: querying `get_tickers_in_category` with an existing category name
returns that category's ticker list, but querying a missing name raises
`UnboundLocalError` — not the claimed `CategoryNotFoundError` — because
the `except KeyError` handler's f-string reads the local `category`,
which the failed lookup never bound. -/
theorem get_tickers_missing_category_unbound_local :
    (∀ (parsed : ParsedConfig) (name : String),
      dictLookup parsed.2.1 name = none →
      getTickersInCategory parsed name = .error .unboundLocalError) ∧
    (∀ (parsed : ParsedConfig) (name : String) (c : Category),
      dictLookup parsed.2.1 name = some c →
      getTickersInCategory parsed name = .ok c.tickers) := by
  constructor
  · intro parsed name h
    simp [getTickersInCategory, h]
  · intro parsed name c h
    simp [getTickersInCategory, h]

/-- Witness for C4: a parsed configuration with only category "Tech";
querying "Bogus" hits the unbound-local path, querying "Tech" returns
its (empty) ticker list. -/
theorem get_tickers_missing_category_unbound_local_witness :
    dictLookup ((1000, [("Tech", Category.mk "Tech" 50 [])], []) :
        ParsedConfig).2.1 "Bogus" = none ∧
    getTickersInCategory ((1000, [("Tech", Category.mk "Tech" 50 [])], []) :
        ParsedConfig) "Bogus" = .error .unboundLocalError ∧
    dictLookup ((1000, [("Tech", Category.mk "Tech" 50 [])], []) :
        ParsedConfig).2.1 "Tech" = some (Category.mk "Tech" 50 []) ∧
    getTickersInCategory ((1000, [("Tech", Category.mk "Tech" 50 [])], []) :
        ParsedConfig) "Tech" = .ok (Category.mk "Tech" 50 []).tickers :=
  ⟨rfl,
    get_tickers_missing_category_unbound_local.1
      ((1000, [("Tech", Category.mk "Tech" 50 [])], []) : ParsedConfig)
      "Bogus" rfl,
    rfl,
    get_tickers_missing_category_unbound_local.2
      ((1000, [("Tech", Category.mk "Tech" 50 [])], []) : ParsedConfig)
      "Tech" (Category.mk "Tech" 50 []) rfl⟩

/-! ### Claim C5 -/

theorem trim_pair (x a : String) (h : a ≠ "") :
    trim_trailing_empty_values [x, a] = [x, a] := by
  simp [trim_trailing_empty_values, List.dropWhile, h]

/-- C5 counterexample: in the input whose first marker row is
`["Stock ticker"]` (no `"Category"` marker before it), the following data
row `["SPY", "50"]` is not interpreted as a ticker declaration: the parse
succeeds with "SPY" registered as a category (left component) and no
ticker registered at all (right component). -/
theorem stock_ticker_marker_row_parsed_as_category :
    (loadInfoFromCsv
        [["Reserved cash amount", "1000"], ["Stock ticker"], ["SPY", "50"]]).toOption.map
        (fun pr => (pr.2.1.map Prod.fst, pr.2.2.map Prod.fst)) =
      some (["SPY"], []) := rfl

/-- C5 (amended): when the first section marker is `"Stock ticker"`, the
settings loop consumes it and control falls into the category loop, so
the next data row is parsed as a `(category_name, percentage)` pair — a
category, not a ticker declaration; only a later `"Stock ticker"` row
would start the ticker section. -/
theorem stock_ticker_first_marker_enters_category_section
    (v n p : String) (q r : ℚ)
    (hv : pyFloat v = some q) (hv0 : v ≠ "")
    (hp : pyFloatChars (pyStrip (stripPercentChars p)) = some r) (hp0 : p ≠ "")
    (hn1 : n ≠ "Category") (hn2 : n ≠ "Stock ticker") :
    loadInfoFromCsv [["Reserved cash amount", v], ["Stock ticker"], [n, p]] =
      .ok (q, [(n, { name := n, allocation_percentage := r, tickers := [] })],
        []) := by
  have t1 := trim_pair "Reserved cash amount" v hv0
  have t2 : trim_trailing_empty_values ["Stock ticker"] = ["Stock ticker"] := rfl
  have t3 := trim_pair n p hp0
  have hs : loadSettings [["Reserved cash amount", v], ["Stock ticker"], [n, p]]
      none = .ok (some q, [[n, p]]) := by
    simp [loadSettings, t1, t2, hv]
  have hc : loadCategories [[n, p]] [] =
      .ok ([(n, { name := n, allocation_percentage := r, tickers := [] })],
        []) := by
    simp [loadCategories, t3, hn1, hn2, Category.init, hp, dictInsert]
  simp only [loadInfoFromCsv, hs, sectionsAfterSettings, hc, loadTickers]

/-- Witness for C5's amended theorem at the concrete input
`[["Reserved cash amount", "1000"], ["Stock ticker"], ["SPY", "50%"]]`. -/
theorem stock_ticker_first_marker_enters_category_section_witness :
    (loadInfoFromCsv
        [["Reserved cash amount", "1000"], ["Stock ticker"], ["SPY", "50%"]]).toOption.map
        (fun pr => (pr.2.1.map Prod.fst, pr.2.2.map Prod.fst)) =
      some (["SPY"], []) := by
  have h := stock_ticker_first_marker_enters_category_section "1000" "SPY"
    "50%" _ _ rfl (by decide) rfl (by decide) (by decide) (by decide)
  rw [h]
  rfl

/-! ### Claim C6 -/

theorem loadSettings_no_reserved :
    ∀ (rows : List Row) (mc : Option ℚ),
      (∀ r ∈ rows,
        (trim_trailing_empty_values r).head? ≠ some "Reserved cash amount") →
      loadSettings rows mc = .ok (mc, settingsRest rows) := by
  intro rows
  induction rows with
  | nil => intro mc _; rfl
  | cons row rest ih =>
    intro mc h
    have hrow := h row (by simp)
    have hrest : ∀ r ∈ rest,
        (trim_trailing_empty_values r).head? ≠ some "Reserved cash amount" :=
      fun r hr => h r (by simp [hr])
    cases htrim : trim_trailing_empty_values row with
    | nil => simp [loadSettings, settingsRest, htrim, ih mc hrest]
    | cons c cs =>
      have hc : c ≠ "Reserved cash amount" := by
        rw [htrim] at hrow
        simpa using hrow
      by_cases h1 : c = "Category"
      · subst h1
        simp [loadSettings, settingsRest, htrim]
      · by_cases h2 : c = "Stock ticker"
        · subst h2
          simp [loadSettings, settingsRest, htrim, h1]
        · simp [loadSettings, settingsRest, htrim, h1, h2, hc, ih mc hrest]

/-- C6 counterexample: the claim says every input with no
`"Reserved cash amount"` row fails with `ParseError` after consuming the
input; but a malformed category row errors first, so this input with the
setting missing fails with `ValueError` instead. -/
theorem missing_setting_not_always_parseError :
    loadInfoFromCsv [["Category"], ["Tech", "abc"]] = .error .valueError ∧
    PyError.valueError ≠ PyError.parseError :=
  ⟨rfl, by decide⟩

/-- C6 (amended): reaching end of input in any of the three sections is
not an error by itself; when no row's first cell is
`"Reserved cash amount"` (so the setting is never set) and the category
and ticker sections parse without their own error, the parse fails with
`ParseError` after consuming all input; and when the settings loop did
record the setting, a clean parse succeeds. -/
theorem missing_reserved_cash_parseError :
    ((∀ mc, loadSettings [] mc = .ok (mc, [])) ∧
     (∀ cbn, loadCategories [] cbn = .ok (cbn, [])) ∧
     (∀ cbn tbn, loadTickers [] cbn tbn = .ok (cbn, tbn))) ∧
    (∀ (rows : List Row) (x : Dict Category × Dict Ticker),
      (∀ r ∈ rows,
        (trim_trailing_empty_values r).head? ≠ some "Reserved cash amount") →
      sectionsAfterSettings (settingsRest rows) = .ok x →
      loadInfoFromCsv rows = .error .parseError) ∧
    (∀ (rows : List Row) (q : ℚ) (r1 : List Row)
        (x : Dict Category × Dict Ticker),
      loadSettings rows none = .ok (some q, r1) →
      sectionsAfterSettings r1 = .ok x →
      loadInfoFromCsv rows = .ok (q, x.1, x.2)) := by
  refine ⟨⟨fun mc => rfl, fun cbn => rfl, fun cbn tbn => rfl⟩, ?_, ?_⟩
  · intro rows x hnone hsec
    obtain ⟨cbn, tbn⟩ := x
    simp only [loadInfoFromCsv, loadSettings_no_reserved rows none hnone, hsec]
  · intro rows q r1 x h1 h2
    obtain ⟨cbn, tbn⟩ := x
    simp only [loadInfoFromCsv, h1, h2]

/-- Witness for C6's amended theorem: a setting-free input whose later
sections are clean fails with `ParseError`; the same input with the
setting present parses successfully. -/
theorem missing_reserved_cash_parseError_witness :
    loadInfoFromCsv [["Category"], ["Tech", "50"], ["Stock ticker"],
      ["AAPL", "Tech"]] = .error .parseError ∧
    (loadInfoFromCsv [["Reserved cash amount", "1000"], ["Category"],
      ["Tech", "50"], ["Stock ticker"], ["AAPL", "Tech"]]).isOk = true := by
  constructor
  · exact missing_reserved_cash_parseError.2.1
      [["Category"], ["Tech", "50"], ["Stock ticker"], ["AAPL", "Tech"]] _
      (by decide) rfl
  · have h := missing_reserved_cash_parseError.2.2
      [["Reserved cash amount", "1000"], ["Category"], ["Tech", "50"],
        ["Stock ticker"], ["AAPL", "Tech"]] _ _ _ rfl rfl
    rw [h]
    rfl

/-! ### Claim C7 -/

theorem appendTicker_unknown (t : Ticker) :
    ∀ (ns : List String) (cbn : Dict Category),
      (∃ n ∈ ns, dictLookup cbn n = none) →
      appendTickerToCategories t ns cbn = .error .keyError := by
  intro ns
  induction ns with
  | nil => intro cbn h; simp at h
  | cons n0 rest ih =>
    intro cbn h
    cases h0 : dictLookup cbn n0 with
    | none => simp [appendTickerToCategories, h0]
    | some c =>
      obtain ⟨n, hn, hnone⟩ := h
      rcases List.mem_cons.mp hn with rfl | hmem
      · rw [h0] at hnone; cases hnone
      · simp only [appendTickerToCategories, h0]
        apply ih
        refine ⟨n, hmem, ?_⟩
        rw [dictLookup_dictInsert]
        have hne : n0 ≠ n := by
          intro he; subst he; rw [h0] at hnone; cases hnone
        rw [if_neg hne]
        exact hnone

/-- C7: a ticker-section data row referencing a category name that is
not registered makes the whole ticker loop fail with `KeyError` at parse
time; the reference is not silently ignored. -/
theorem unknown_category_reference_keyError (row : Row) (rest : List Row)
    (cbn : Dict Category) (tbn : Dict Ticker) (c : String) (cs : List String)
    (htrim : trim_trailing_empty_values row = c :: cs)
    (hc : c ≠ "Stock ticker")
    (hbad : ∃ n ∈ cs, dictLookup cbn n = none) :
    loadTickers (row :: rest) cbn tbn = .error .keyError := by
  simp [loadTickers, htrim, hc, appendTicker_unknown ⟨c, cs⟩ cs cbn hbad]

/-- Witness for C7: the row `("AAPL", "Ghost")` against a configuration
declaring only category "Tech". -/
theorem unknown_category_reference_keyError_witness :
    trim_trailing_empty_values ["AAPL", "Ghost"] = "AAPL" :: ["Ghost"] ∧
    ("AAPL" : String) ≠ "Stock ticker" ∧
    (∃ n ∈ ["Ghost"],
      dictLookup [("Tech", Category.mk "Tech" 50 [])] n = none) ∧
    loadTickers [["AAPL", "Ghost"]] [("Tech", Category.mk "Tech" 50 [])] [] =
      .error .keyError :=
  ⟨rfl, by decide, ⟨"Ghost", by decide, rfl⟩,
    unknown_category_reference_keyError ["AAPL", "Ghost"] []
      [("Tech", Category.mk "Tech" 50 [])] [] "AAPL" ["Ghost"] rfl (by decide)
      ⟨"Ghost", by decide, rfl⟩⟩

/-! ### Claim C8 -/

/-- C8: an enriched position has `total_return_percent = 0` exactly when
`total_cost = quantity * average_buy_price` is 0 (whatever the current
price), and otherwise `total_return_percent =
100 * (total_value - total_cost) / total_cost`. -/
theorem total_return_percent_zero_cost (symbol : String)
    (quantity average_buy_price current_price previous_close_price : ℚ)
    (h : previous_close_price ≠ 0) :
    ∃ p, enrichPosition symbol quantity average_buy_price current_price
        previous_close_price = .ok p ∧
      p.total_cost = quantity * average_buy_price ∧
      p.total_value = quantity * current_price ∧
      (p.total_cost = 0 → p.total_return_percent = 0) ∧
      (p.total_cost ≠ 0 → p.total_return_percent =
        100 * (p.total_value - p.total_cost) / p.total_cost) := by
  have hdef : enrichPosition symbol quantity average_buy_price current_price
      previous_close_price = .ok
      { symbol := symbol
        quantity := quantity
        average_buy_price := average_buy_price
        current_price := current_price
        previous_close_price := previous_close_price
        price_change_percent_today :=
          ((current_price - previous_close_price) / previous_close_price) * 100
        total_cost := quantity * average_buy_price
        total_value := quantity * current_price
        total_return_amount :=
          quantity * current_price - quantity * average_buy_price
        total_return_percent :=
          (if quantity * average_buy_price = 0 then 0
           else (quantity * current_price - quantity * average_buy_price) /
             (quantity * average_buy_price)) * 100 } := by
    unfold enrichPosition
    rw [if_neg h]
  refine ⟨_, hdef, ?_, ?_, ?_, ?_⟩ <;> dsimp only
  · intro hc
    rw [if_pos hc, zero_mul]
  · intro hc
    rw [if_neg hc]
    ring

/-- Witness for C8: a position with quantity 10, average buy price 100,
current price 150 and previous close 100. -/
theorem total_return_percent_zero_cost_witness :
    (100 : ℚ) ≠ 0 ∧
    (∃ p, enrichPosition "AAPL" 10 100 150 100 = .ok p ∧
      p.total_cost = 10 * 100 ∧
      p.total_value = 10 * 150 ∧
      (p.total_cost = 0 → p.total_return_percent = 0) ∧
      (p.total_cost ≠ 0 → p.total_return_percent =
        100 * (p.total_value - p.total_cost) / p.total_cost)) :=
  ⟨by norm_num,
    total_return_percent_zero_cost "AAPL" 10 100 150 100 (by norm_num)⟩

/-! ### Claim C10 -/

/-- C10: a settings row whose trimmed form is exactly
`["Reserved cash amount"]` (no value cell) and a category-section data
row with a name but no percentage cell both make the parse fail with an
unhandled `IndexError` (the missing `row[1]`), not a `ParseError`. -/
theorem one_cell_row_indexError :
    (∀ (row : Row) (rest : List Row) (mc : Option ℚ),
      trim_trailing_empty_values row = ["Reserved cash amount"] →
      loadSettings (row :: rest) mc = .error .indexError) ∧
    (∀ (row : Row) (rest : List Row) (cbn : Dict Category) (n : String),
      trim_trailing_empty_values row = [n] →
      n ≠ "Category" → n ≠ "Stock ticker" →
      loadCategories (row :: rest) cbn = .error .indexError) ∧
    (∀ (row : Row) (rest : List Row),
      trim_trailing_empty_values row = ["Reserved cash amount"] →
      loadInfoFromCsv (row :: rest) = .error .indexError) := by
  refine ⟨?_, ?_, ?_⟩
  · intro row rest mc htrim
    simp [loadSettings, htrim]
  · intro row rest cbn n htrim h1 h2
    simp [loadCategories, htrim, h1, h2]
  · intro row rest htrim
    rw [loadInfoFromCsv]
    have : loadSettings (row :: rest) none = .error .indexError := by
      simp [loadSettings, htrim]
    rw [this]

/-! ### Claim C9 -/

theorem mem_dictInsert {α : Type} :
    ∀ (d : Dict α) (k : String) (v : α) (p : String × α),
      p ∈ dictInsert d k v → p ∈ d ∨ p = (k, v) := by
  intro d
  induction d with
  | nil =>
    intro k v p hp
    simp only [dictInsert, List.mem_singleton] at hp
    exact Or.inr hp
  | cons hd tl ih =>
    intro k v p hp
    obtain ⟨k', v'⟩ := hd
    by_cases hk : k' = k
    · subst hk
      rw [dictInsert, if_pos rfl] at hp
      rcases List.mem_cons.mp hp with he | hm
      · exact Or.inr he
      · exact Or.inl (List.mem_cons_of_mem _ hm)
    · rw [dictInsert, if_neg hk] at hp
      rcases List.mem_cons.mp hp with he | hm
      · exact Or.inl (he ▸ List.mem_cons_self _ _)
      · rcases ih k v p hm with h | h
        · exact Or.inl (List.mem_cons_of_mem _ h)
        · exact Or.inr h

theorem dictInsert_keys_of_mem {α : Type} :
    ∀ (d : Dict α) (k : String) (v w : α),
      dictLookup d k = some w →
      (dictInsert d k v).map Prod.fst = d.map Prod.fst := by
  intro d
  induction d with
  | nil => intro k v w h; simp [dictLookup] at h
  | cons hd tl ih =>
    intro k v w h
    obtain ⟨k', v'⟩ := hd
    by_cases hk : k' = k
    · subst hk
      simp [dictInsert]
    · rw [dictLookup, if_neg hk] at h
      simp [dictInsert, hk, ih k v w h]

theorem dictInsert_keys_sub {α : Type} :
    ∀ (d : Dict α) (k : String) (v : α) (x : String),
      x ∈ (dictInsert d k v).map Prod.fst → x = k ∨ x ∈ d.map Prod.fst := by
  intro d
  induction d with
  | nil =>
    intro k v x h
    simp [dictInsert] at h
    exact Or.inl h
  | cons hd tl ih =>
    intro k v x h
    obtain ⟨k', v'⟩ := hd
    by_cases hk : k' = k
    · subst hk
      simp only [dictInsert, if_pos rfl, List.map_cons] at h
      rcases List.mem_cons.mp h with he | hm
      · exact Or.inl he
      · exact Or.inr (List.mem_cons_of_mem _ hm)
    · simp only [dictInsert, if_neg hk, List.map_cons] at h
      rcases List.mem_cons.mp h with he | hm
      · exact Or.inr (by simp [he])
      · rcases ih k v x hm with h1 | h1
        · exact Or.inl h1
        · exact Or.inr (List.mem_cons_of_mem _ h1)

theorem dictInsert_keys_nodup {α : Type} :
    ∀ (d : Dict α) (k : String) (v : α),
      (d.map Prod.fst).Nodup → ((dictInsert d k v).map Prod.fst).Nodup := by
  intro d
  induction d with
  | nil => intro k v _; simp [dictInsert]
  | cons hd tl ih =>
    intro k v hnd
    obtain ⟨k', v'⟩ := hd
    rw [List.map_cons, List.nodup_cons] at hnd
    by_cases hk : k' = k
    · subst hk
      have hins : dictInsert ((k', v') :: tl) k' v = (k', v) :: tl := by
        rw [dictInsert, if_pos rfl]
      rw [hins, List.map_cons, List.nodup_cons]
      exact hnd
    · simp only [dictInsert, if_neg hk, List.map_cons, List.nodup_cons]
      refine ⟨?_, ih k v hnd.2⟩
      intro hmem
      rcases dictInsert_keys_sub tl k v k' hmem with h | h
      · exact hk h
      · exact hnd.1 h

theorem dictLookup_of_mem {α : Type} :
    ∀ (d : Dict α), (d.map Prod.fst).Nodup →
      ∀ (k : String) (v : α), (k, v) ∈ d → dictLookup d k = some v := by
  intro d
  induction d with
  | nil => intro _ k v h; cases h
  | cons hd tl ih =>
    intro hnd k v h
    obtain ⟨k', v'⟩ := hd
    rw [List.map_cons, List.nodup_cons] at hnd
    rcases List.mem_cons.mp h with he | hm
    · rw [Prod.mk.injEq] at he
      obtain ⟨h1, h2⟩ := he
      subst h1
      subst h2
      simp [dictLookup]
    · have hk : k' ≠ k := by
        intro he
        subst he
        exact hnd.1 (List.mem_map.mpr ⟨(k', v), hm, rfl⟩)
      rw [dictLookup, if_neg hk]
      exact ih hnd.2 k v hm

theorem dictInsert_absent {α : Type} :
    ∀ (d : Dict α) (k : String) (v : α),
      dictLookup d k = none → dictInsert d k v = d ++ [(k, v)] := by
  intro d
  induction d with
  | nil => intro k v _; rfl
  | cons hd tl ih =>
    intro k v h
    obtain ⟨k', v'⟩ := hd
    rw [dictLookup] at h
    by_cases hk : k' = k
    · rw [if_pos hk] at h
      cases h
    · rw [if_neg hk] at h
      simp [dictInsert, hk, ih k v h]

theorem catNamesFinset_insert_member (t : Ticker) :
    ∀ (cbn : Dict Category) (ncat : String) (c : Category),
      dictLookup cbn ncat = some c →
      catNamesFinset (dictInsert cbn ncat
        { name := c.name, allocation_percentage := c.allocation_percentage,
          tickers := c.tickers ++ [t] }) = catNamesFinset cbn ∪ {t.name} := by
  intro cbn
  induction cbn with
  | nil => intro ncat c h; simp [dictLookup] at h
  | cons hd tl ih =>
    intro ncat c h
    obtain ⟨k, v⟩ := hd
    by_cases hk : k = ncat
    · subst hk
      rw [dictLookup, if_pos rfl] at h
      injection h with h
      subst h
      simp only [dictInsert, if_pos rfl, catNamesFinset, List.map_append,
        List.toFinset_append, List.map_cons, List.map_nil, List.toFinset_cons,
        List.toFinset_nil, insert_emptyc_eq]
      exact Finset.union_right_comm _ _ _
    · rw [dictLookup, if_neg hk] at h
      simp only [dictInsert, if_neg hk, catNamesFinset, ih ncat c h]
      rw [Finset.union_assoc]

theorem appendTicker_ok_keys (t : Ticker) :
    ∀ (ns : List String) (cbn cbn' : Dict Category),
      appendTickerToCategories t ns cbn = .ok cbn' →
      cbn'.map Prod.fst = cbn.map Prod.fst := by
  intro ns
  induction ns with
  | nil =>
    intro cbn cbn' h
    injection h with h
    rw [h]
  | cons n0 rest ih =>
    intro cbn cbn' h
    cases h0 : dictLookup cbn n0 with
    | none =>
      simp only [appendTickerToCategories, h0] at h
      cases h
    | some c =>
      simp only [appendTickerToCategories, h0] at h
      rw [ih _ _ h, dictInsert_keys_of_mem cbn n0 _ c h0]

theorem appendTicker_ok_names (t : Ticker) :
    ∀ (ns : List String) (cbn cbn' : Dict Category),
      appendTickerToCategories t ns cbn = .ok cbn' →
      catNamesFinset cbn' = catNamesFinset cbn ∪
        (if ns = [] then ∅ else {t.name}) := by
  intro ns
  induction ns with
  | nil =>
    intro cbn cbn' h
    injection h with h
    rw [← h]
    simp
  | cons n0 rest ih =>
    intro cbn cbn' h
    cases h0 : dictLookup cbn n0 with
    | none =>
      simp only [appendTickerToCategories, h0] at h
      cases h
    | some c =>
      simp only [appendTickerToCategories, h0] at h
      rw [ih _ _ h, catNamesFinset_insert_member t cbn n0 c h0]
      have hne : ¬ (n0 :: rest) = ([] : List String) := by simp
      rw [if_neg hne]
      by_cases hr : rest = []
      · subst hr
        simp
      · rw [if_neg hr, Finset.union_assoc, Finset.union_self]

theorem activeNamesFinset_append_fresh (tbn : Dict Ticker) (c : String)
    (cs : List String) (h : dictLookup tbn c = none) :
    activeNamesFinset (dictInsert tbn c ⟨c, cs⟩) =
      activeNamesFinset tbn ∪ (if cs = [] then ∅ else {c}) := by
  rw [dictInsert_absent tbn c _ h]
  cases cs with
  | nil => simp [activeNamesFinset, List.filter_append]
  | cons a as => simp [activeNamesFinset, List.filter_append]

theorem loadTickers_delta :
    ∀ (rows : List Row) (cbn : Dict Category) (tbn : Dict Ticker)
      (cbn' : Dict Category) (tbn' : Dict Ticker),
      (tickerRowNames rows).Nodup →
      (∀ n ∈ tickerRowNames rows, dictLookup tbn n = none) →
      loadTickers rows cbn tbn = .ok (cbn', tbn') →
      catNamesFinset cbn' =
        catNamesFinset cbn ∪ (activeRowNames rows).toFinset ∧
      activeNamesFinset tbn' =
        activeNamesFinset tbn ∪ (activeRowNames rows).toFinset ∧
      cbn'.map Prod.fst = cbn.map Prod.fst := by
  intro rows
  induction rows with
  | nil =>
    intro cbn tbn cbn' tbn' _ _ h
    injection h with h
    rw [Prod.mk.injEq] at h
    obtain ⟨h1, h2⟩ := h
    subst h1
    subst h2
    exact ⟨by simp [activeRowNames], by simp [activeRowNames], rfl⟩
  | cons row rest ih =>
    intro cbn tbn cbn' tbn' hnodup hfresh h
    cases htrim : trim_trailing_empty_values row with
    | nil =>
      simp only [loadTickers, htrim] at h
      have e1 : tickerRowNames (row :: rest) = tickerRowNames rest := by
        simp [tickerRowNames, htrim]
      have e2 : activeRowNames (row :: rest) = activeRowNames rest := by
        simp [activeRowNames, htrim]
      rw [e1] at hnodup hfresh
      rw [e2]
      exact ih cbn tbn cbn' tbn' hnodup hfresh h
    | cons c cs =>
      by_cases hst : c = "Stock ticker"
      · subst hst
        simp only [loadTickers, htrim, if_pos rfl] at h
        have e1 : tickerRowNames (row :: rest) = tickerRowNames rest := by
          simp [tickerRowNames, htrim]
        have e2 : activeRowNames (row :: rest) = activeRowNames rest := by
          simp [activeRowNames, htrim]
        rw [e1] at hnodup hfresh
        rw [e2]
        exact ih cbn tbn cbn' tbn' hnodup hfresh h
      · simp only [loadTickers, htrim, if_neg hst] at h
        cases happ : appendTickerToCategories ⟨c, cs⟩ cs cbn with
        | error e =>
          rw [happ] at h
          cases h
        | ok cbn1 =>
          rw [happ] at h
          have e1 : tickerRowNames (row :: rest) = c :: tickerRowNames rest := by
            simp [tickerRowNames, htrim, hst]
          rw [e1] at hnodup hfresh
          have hcnotin : c ∉ tickerRowNames rest :=
            (List.nodup_cons.mp hnodup).1
          have hnodup' := (List.nodup_cons.mp hnodup).2
          have hcfresh : dictLookup tbn c = none := hfresh c (by simp)
          have hfresh' : ∀ n ∈ tickerRowNames rest,
              dictLookup (dictInsert tbn c ⟨c, cs⟩) n = none := by
            intro n hn
            rw [dictLookup_dictInsert]
            have hcn : c ≠ n := fun he => hcnotin (he ▸ hn)
            rw [if_neg hcn]
            exact hfresh n (by simp [hn])
          obtain ⟨ihc, iha, ihk⟩ :=
            ih cbn1 (dictInsert tbn c ⟨c, cs⟩) cbn' tbn' hnodup' hfresh' h
          have hnames1 := appendTicker_ok_names ⟨c, cs⟩ cs cbn cbn1 happ
          have hkeys1 := appendTicker_ok_keys ⟨c, cs⟩ cs cbn cbn1 happ
          have hact1 := activeNamesFinset_append_fresh tbn c cs hcfresh
          by_cases hcs : cs = []
          · subst hcs
            have e2 : activeRowNames (row :: rest) = activeRowNames rest := by
              simp [activeRowNames, htrim, hst]
            rw [e2]
            refine ⟨?_, ?_, ?_⟩
            · rw [ihc, hnames1]
              simp
            · rw [iha, hact1]
              simp
            · rw [ihk, hkeys1]
          · have e2 : activeRowNames (row :: rest) =
                c :: activeRowNames rest := by
              simp [activeRowNames, htrim, hst, hcs]
            rw [e2]
            refine ⟨?_, ?_, ?_⟩
            · rw [ihc, hnames1, if_neg hcs]
              ext x
              simp
              tauto
            · rw [iha, hact1, if_neg hcs]
              ext x
              simp
              tauto
            · rw [ihk, hkeys1]

theorem CategoryInit_tickers (n ap : String) (cat : Category)
    (h : Category.init n ap = .ok cat) : cat.tickers = [] := by
  unfold Category.init at h
  cases hm : pyFloatChars (pyStrip (stripPercentChars ap)) with
  | none =>
    rw [hm] at h
    cases h
  | some q =>
    rw [hm] at h
    injection h with h
    rw [← h]

theorem loadCategories_inv :
    ∀ (rows : List Row) (cbn cbn' : Dict Category) (r2 : List Row),
      loadCategories rows cbn = .ok (cbn', r2) →
      (∀ p ∈ cbn, p.2.tickers = []) →
      (cbn.map Prod.fst).Nodup →
      (∀ p ∈ cbn', p.2.tickers = []) ∧ (cbn'.map Prod.fst).Nodup := by
  intro rows
  induction rows with
  | nil =>
    intro cbn cbn' r2 h hc hnd
    injection h with h
    rw [Prod.mk.injEq] at h
    obtain ⟨h1, _⟩ := h
    subst h1
    exact ⟨hc, hnd⟩
  | cons row rest ih =>
    intro cbn cbn' r2 h hc hnd
    cases htrim : trim_trailing_empty_values row with
    | nil =>
      simp only [loadCategories, htrim] at h
      exact ih cbn cbn' r2 h hc hnd
    | cons c cs =>
      by_cases h1 : c = "Category"
      · simp only [loadCategories, htrim, if_pos h1] at h
        exact ih cbn cbn' r2 h hc hnd
      · by_cases h2 : c = "Stock ticker"
        · simp only [loadCategories, htrim, if_neg h1, if_pos h2] at h
          injection h with h
          rw [Prod.mk.injEq] at h
          obtain ⟨hcb, _⟩ := h
          subst hcb
          exact ⟨hc, hnd⟩
        · cases cs with
          | nil =>
            simp only [loadCategories, htrim, if_neg h1, if_neg h2] at h
            cases h
          | cons ap cs' =>
            simp only [loadCategories, htrim, if_neg h1, if_neg h2] at h
            cases hcat : Category.init c ap with
            | error e =>
              simp only [hcat] at h
              cases h
            | ok cat =>
              simp only [hcat] at h
              refine ih _ cbn' r2 h ?_ (dictInsert_keys_nodup cbn c cat hnd)
              intro p hp
              rcases mem_dictInsert cbn c cat p hp with hm | he
              · exact hc p hm
              · rw [he]
                exact CategoryInit_tickers c ap cat hcat

theorem catNamesFinset_empty :
    ∀ (cbn : Dict Category), (∀ p ∈ cbn, p.2.tickers = []) →
      catNamesFinset cbn = ∅ := by
  intro cbn
  induction cbn with
  | nil => intro _; rfl
  | cons p rest ih =>
    intro h
    have hp := h p (by simp)
    simp [catNamesFinset, hp, ih (fun p2 h2 => h p2 (by simp [h2]))]

theorem unionOverNames_eq (parsed : ParsedConfig) :
    ∀ (entries : Dict Category),
      (∀ p ∈ entries, dictLookup parsed.2.1 p.1 = some p.2) →
      unionOverNames parsed entries = catNamesFinset entries := by
  intro entries
  induction entries with
  | nil => intro _; rfl
  | cons p rest ih =>
    intro h
    have hp := h p (by simp)
    have hg : getTickersInCategory parsed p.1 = .ok p.2.tickers := by
      simp only [getTickersInCategory, hp]
    simp only [unionOverNames, hg, catNamesFinset,
      ih (fun p2 h2 => h p2 (by simp [h2]))]

/-- C9 counterexample: the same ticker name declared twice in the ticker
section (second time with no categories) parses successfully, but the
union of the names returned by `getTickersInCategory` over all categories
is `{"AAPL"}` while the set of parsed ticker names with a non-empty
category list is empty: the round-trip equality of the claim fails. -/
theorem roundtrip_fails_on_duplicate_ticker :
    (loadInfoFromCsv [["Reserved cash amount", "1"], ["Category"],
        ["Tech", "50"], ["Stock ticker"], ["AAPL", "Tech"], ["AAPL"]]).toOption.map
        (fun pr => (unionOfCategoryQueries pr, activeNamesFinset pr.2.2)) =
      some ({"AAPL"}, ∅) ∧
    ({"AAPL"} : Finset String) ≠ (∅ : Finset String) :=
  ⟨by decide, by decide⟩

/-- C9 (amended): for a successfully parsed configuration whose
ticker-section data rows declare pairwise-distinct ticker names, the
union over all parsed categories of the ticker names returned by
`getTickersInCategory` equals the set of parsed ticker names whose
category list is non-empty. -/
theorem roundtrip_union_eq_active (rows r1 r2 : List Row) (q : ℚ)
    (cbn0 cbn : Dict Category) (tbn : Dict Ticker)
    (h1 : loadSettings rows none = .ok (some q, r1))
    (h2 : loadCategories r1 [] = .ok (cbn0, r2))
    (h3 : (tickerRowNames r2).Nodup)
    (h4 : loadTickers r2 cbn0 [] = .ok (cbn, tbn)) :
    loadInfoFromCsv rows = .ok (q, cbn, tbn) ∧
    unionOfCategoryQueries (q, cbn, tbn) = activeNamesFinset tbn := by
  constructor
  · simp only [loadInfoFromCsv, h1, sectionsAfterSettings, h2, h4]
  · obtain ⟨hemp0, hnodup0⟩ :=
      loadCategories_inv r1 [] cbn0 r2 h2 (by intro p hp; cases hp) (by simp)
    have hfresh : ∀ n ∈ tickerRowNames r2,
        dictLookup ([] : Dict Ticker) n = none := fun n _ => rfl
    obtain ⟨hcat, hact, hkeys⟩ :=
      loadTickers_delta r2 cbn0 [] cbn tbn h3 hfresh h4
    have hnodup : (cbn.map Prod.fst).Nodup := hkeys ▸ hnodup0
    have hmem : ∀ p ∈ cbn, dictLookup cbn p.1 = some p.2 := by
      intro p hp
      exact dictLookup_of_mem cbn hnodup p.1 p.2 (by
        have : (p.1, p.2) = p := rfl
        rw [this]
        exact hp)
    have hu : unionOfCategoryQueries (q, cbn, tbn) = catNamesFinset cbn :=
      unionOverNames_eq (q, cbn, tbn) cbn hmem
    rw [hu, hcat, catNamesFinset_empty cbn0 hemp0, hact]
    rfl

/-- Witness for C9's amended theorem: a configuration with distinct
ticker rows "AAPL" and "Cash", both in category "Tech"; the union of the
per-category queries and the active ticker-name set are both
`{"AAPL", "Cash"}`. -/
theorem roundtrip_union_eq_active_witness :
    (loadInfoFromCsv [["Reserved cash amount", "1"], ["Category"],
        ["Tech", "50"], ["Stock ticker"], ["AAPL", "Tech"], ["Cash", "Tech"]]).toOption.map
        (fun pr => (unionOfCategoryQueries pr, activeNamesFinset pr.2.2)) =
      some ({"AAPL", "Cash"}, {"AAPL", "Cash"}) := by
  have h := roundtrip_union_eq_active
    [["Reserved cash amount", "1"], ["Category"], ["Tech", "50"],
      ["Stock ticker"], ["AAPL", "Tech"], ["Cash", "Tech"]]
    [["Tech", "50"], ["Stock ticker"], ["AAPL", "Tech"], ["Cash", "Tech"]]
    [["AAPL", "Tech"], ["Cash", "Tech"]] _ _ _ _ rfl rfl (by decide) rfl
  rw [h.1]
  simp only [Except.toOption, Option.map_some']
  rw [h.2]
  decide

/-- Witness for C10: the rows `["Reserved cash amount", ""]` and
`["Tech", ""]`. -/
theorem one_cell_row_indexError_witness :
    trim_trailing_empty_values ["Reserved cash amount", ""] =
      ["Reserved cash amount"] ∧
    loadSettings [["Reserved cash amount", ""]] none = .error .indexError ∧
    trim_trailing_empty_values ["Tech", ""] = ["Tech"] ∧
    ("Tech" : String) ≠ "Category" ∧ ("Tech" : String) ≠ "Stock ticker" ∧
    loadCategories [["Tech", ""]] [] = .error .indexError ∧
    loadInfoFromCsv [["Reserved cash amount", ""]] = .error .indexError :=
  ⟨rfl,
    one_cell_row_indexError.1 ["Reserved cash amount", ""] [] none rfl,
    rfl, by decide, by decide,
    one_cell_row_indexError.2.1 ["Tech", ""] [] [] "Tech" rfl (by decide)
      (by decide),
    one_cell_row_indexError.2.2 ["Reserved cash amount", ""] [] rfl⟩

end RHC
